import Mathlib

/-!
Shallow embedding of the PECO-Buddy enrichment script (src/script.py) and
proofs of the specified properties.

Modelling conventions:
- Python dictionaries whose keys come from a fixed set are embedded as Lean
  structures with Option-valued fields (some = key present, none = key absent).
- Python dictionaries with dynamic string keys are embedded as insertion-ordered
  association lists.
- An external HTTP call is embedded as an oracle argument: none models a
  requests.RequestException (transport error or raise_for_status), some models
  a successful response with the given parsed JSON body.
- A Python expression that raises an uncaught exception (TypeError, KeyError)
  is embedded as an Option-valued function returning none.
-/

/-- Whitespace characters removed by the Python str.strip method. -/
def isPySpace (c : Char) : Bool :=
  c == ' ' || c == '\t' || c == '\n' || c == '\r' || c == '\x0b' || c == '\x0c'

/-- Embedding of the Python str.strip method: remove leading and trailing
whitespace. -/
def pyStrip (s : String) : String :=
  String.mk (((s.toList.dropWhile isPySpace).reverse.dropWhile isPySpace).reverse)

/-- Character-list helper: does the list start with the given pattern. -/
def chStartsWith : List Char → List Char → Bool
  | [], _ => true
  | _ :: _, [] => false
  | p :: ps, c :: cs => p == c && chStartsWith ps cs

/-- Character-list helper: does the pattern occur as a contiguous sublist. -/
def chContainsSub : List Char → List Char → Bool
  | pat, [] => chStartsWith pat []
  | pat, c :: cs => chStartsWith pat (c :: cs) || chContainsSub pat cs

/-- Embedding of the Python substring test: pat in s. -/
def strContains (s pat : String) : Bool :=
  chContainsSub pat.toList s.toList

/-! ## Document object model (the docx collaborator, read-only traversal) -/

/-- A font color object; rgb is none when the color object carries no RGB
value. -/
structure FontColor where
  rgb : Option String
deriving Repr, DecidableEq

/-- The font of a run: an optional highlight color index (its str form, for
example "PINK (5)") and an optional font color object. -/
structure RunFont where
  highlight_color : Option String
  color : Option FontColor
deriving Repr, DecidableEq

/-- A run of text inside a paragraph. -/
structure Run where
  text : String
  font : RunFont
deriving Repr, DecidableEq

/-- A paragraph: an ordered list of runs. -/
structure Paragraph where
  runs : List Run
deriving Repr, DecidableEq

/-- A table cell: its aggregate text and its paragraphs. -/
structure Cell where
  text : String
  paragraphs : List Paragraph
deriving Repr, DecidableEq

/-- A table row. A docx table row always exposes at least one cell, so the
first cell is stored apart from the remaining cells. -/
structure Row where
  firstCell : Cell
  restCells : List Cell
deriving Repr, DecidableEq

/-- The cell list of a row, as exposed by row.cells. -/
def Row.cells (r : Row) : List Cell :=
  r.firstCell :: r.restCells

/-- The last cell of a row, as accessed by the Python index -1. -/
def Row.lastCell (r : Row) : Cell :=
  r.cells.getLast (List.cons_ne_nil _ _)

/-- A table: an ordered list of rows. -/
structure Table where
  rows : List Row
deriving Repr, DecidableEq

/-! ## get_highlight_color (src/script.py lines 136-142) -/

/-- Embedding of get_highlight_color: return the highlight color index when
present, else the RGB font color when the color object and its rgb value are
present, else none. -/
def get_highlight_color (run : Run) : Option String :=
  match run.font.highlight_color with
  | some h => some h
  | none =>
    match run.font.color with
    | some c =>
      match c.rgb with
      | some rgbv => some rgbv
      | none => none
    | none => none

/-! ## extract_peco_highlights_from_tables (src/script.py lines 145-210) -/

/-- Embedding of the annotation_map dictionary: highlight color key to PECO
category. -/
def annotMap (colorKey : String) : Option String :=
  if colorKey == "PINK (5)" then some "Population"
  else if colorKey == "BRIGHT_GREEN (4)" then some "Exposure"
  else if colorKey == "TURQUOISE (3)" then some "Comparator"
  else if colorKey == "YELLOW (7)" then some "Outcome"
  else none

/-- An insertion-ordered map from PECO category name to the list of highlighted
phrases, embedding the Python dict color_text_map. -/
abbrev PecoMap := List (String × List String)

/-- Append a text under a key, creating the key at the end when absent:
embeds color_text_map setdefault-and-append. -/
def pecoMapAppend (m : PecoMap) (k t : String) : PecoMap :=
  match m with
  | [] => [(k, [t])]
  | (k0, ts) :: rest =>
    if k0 == k then (k0, ts ++ [t]) :: rest else (k0, ts) :: pecoMapAppend rest k t

/-- One step of the run loop inside the PECO-statement branch: classify the
run, route highlighted recognized text into the category map, and append the
stripped text plus a space to the running statement. -/
def processRun (st : PecoMap × String) (run : Run) : PecoMap × String :=
  let color := get_highlight_color run
  let text := pyStrip run.text
  let m :=
    match color with
    | some ck =>
      if text ≠ "" then
        match annotMap ck with
        | some cat => pecoMapAppend st.1 cat text
        | none => st.1
      else st.1
    | none => st.1
  (m, st.2 ++ text ++ " ")

/-- Iterate the paragraphs and runs of the PECO cell, building the category
map and the raw statement string. -/
def processPecoCell (cell : Cell) : PecoMap × String :=
  cell.paragraphs.foldl (fun st p => p.runs.foldl processRun st) ([], "")

/-- The per-table dictionary table_dict. A field is some v exactly when the
corresponding key is present in the Python dict. -/
structure TableDict where
  doc_title : Option String := none
  doc_lastauthorname : Option String := none
  doc_year : Option String := none
  doc_url : Option String := none
  doc_peco_section : Option String := none
  doc_annotator_comments : Option String := none
  peco_elements : Option PecoMap := none
  peco_statement : Option String := none
deriving Repr, DecidableEq

/-- A Python dict is falsy exactly when it has no keys. -/
def TableDict.isEmpty (d : TableDict) : Bool :=
  d.doc_title.isNone && d.doc_lastauthorname.isNone && d.doc_year.isNone &&
  d.doc_url.isNone && d.doc_peco_section.isNone &&
  d.doc_annotator_comments.isNone && d.peco_elements.isNone &&
  d.peco_statement.isNone

/-- Row step for the Title of manuscript label (src/script.py lines 161-162). -/
def rowStepTitle (r : Row) (d : TableDict) : TableDict :=
  if strContains (pyStrip r.firstCell.text) "Title of manuscript" then
    { d with doc_title := some (pyStrip r.lastCell.text) } else d

/-- Row step for the Last name of first author label (lines 165-166). -/
def rowStepAuthor (r : Row) (d : TableDict) : TableDict :=
  if strContains (pyStrip r.firstCell.text) "Last name of first author" then
    { d with doc_lastauthorname := some (pyStrip r.lastCell.text) } else d

/-- Row step for the Year of publication label (lines 169-170). -/
def rowStepYear (r : Row) (d : TableDict) : TableDict :=
  if strContains (pyStrip r.firstCell.text) "Year of publication" then
    { d with doc_year := some (pyStrip r.lastCell.text) } else d

/-- Row step for the URL of HTML manuscript label (lines 173-174). -/
def rowStepUrl (r : Row) (d : TableDict) : TableDict :=
  if strContains (pyStrip r.firstCell.text) "URL of HTML manuscript" then
    { d with doc_url := some (pyStrip r.lastCell.text) } else d

/-- Row step for the Section PECO statement is in label (lines 177-178). -/
def rowStepSection (r : Row) (d : TableDict) : TableDict :=
  if strContains (pyStrip r.firstCell.text) "Section PECO statement is in" then
    { d with doc_peco_section := some (pyStrip r.lastCell.text) } else d

/-- Row step for the Annotator comments label (lines 181-182). -/
def rowStepComments (r : Row) (d : TableDict) : TableDict :=
  if strContains (pyStrip r.firstCell.text) "Annotator comments" then
    { d with doc_annotator_comments := some (pyStrip r.lastCell.text) } else d

/-- Row step for the PECO statement label (lines 185-205): process the last
cell and overwrite both PECO fields. -/
def rowStepPeco (r : Row) (d : TableDict) : TableDict :=
  if strContains (pyStrip r.firstCell.text) "PECO statement" then
    { d with peco_elements := some (processPecoCell r.lastCell).1,
             peco_statement := some (processPecoCell r.lastCell).2 }
  else d

/-- Embedding of the row loop body: seven independent substring tests on the
stripped first-cell text, applied in source order, each routing the stripped
last-cell text (or, for the PECO row, the processed cell contents) into the
table dict. -/
def processRow (d : TableDict) (r : Row) : TableDict :=
  rowStepPeco r (rowStepComments r (rowStepSection r (rowStepUrl r
    (rowStepYear r (rowStepAuthor r (rowStepTitle r d))))))

/-- Fold the rows of one table into its table dict. -/
def processTable (t : Table) : TableDict :=
  t.rows.foldl processRow {}

/-- Embedding of extract_peco_highlights_from_tables: one table dict per
table, kept only when the dict is nonempty (Python truthiness of table_dict). -/
def extract_peco_highlights_from_tables (doc : List Table) : List TableDict :=
  doc.filterMap (fun t =>
    let d := processTable t
    if d.isEmpty then none else some d)


/-! ## retrieve_ontology_matches (src/script.py lines 7-56) -/

/-- A raw JSON object from the service, embedded as an insertion-ordered
association list from key to string value. -/
abbrev RawDoc := List (String × String)

/-- Embedding of the Python dict get method with a default value. -/
def dget (d : RawDoc) (k dfl : String) : String :=
  match d.find? (fun kv => kv.1 == k) with
  | some kv => kv.2
  | none => dfl

/-- An ontology concept dict as built by the script. The five base fields are
always present; ancestors and distance_from_root model keys added later by
the ranker (none = key absent). -/
structure OntologyConcept where
  label : String
  iri : String
  description : String
  ontology_name : String
  short_form : String
  ancestors : Option (List RawDoc) := none
  distance_from_root : Option Nat := none
deriving Repr, DecidableEq

/-- Build one concept dict from a raw search result document, filling each
missing field with its fixed sentinel (src/script.py lines 44-50). -/
def buildConcept (d : RawDoc) : OntologyConcept :=
  { label := dget d "label" "No Label"
    iri := dget d "iri" "No IRI"
    description := dget d "description" "No Description"
    ontology_name := dget d "ontology_name" "No Ontology Name"
    short_form := dget d "short_form" "No Short Form" }

/-- The response field of a parsed search body (the docs key may be absent). -/
structure ResponseField where
  docs : Option (List RawDoc)
deriving Repr, DecidableEq

/-- A parsed search response body (the response key may be absent). -/
structure SearchResponse where
  response : Option ResponseField
deriving Repr, DecidableEq

/-- Embedding of results.get(response, {}).get(docs, []). -/
def docsOf (r : SearchResponse) : List RawDoc :=
  match r.response with
  | some f => f.docs.getD []
  | none => []

/-- Embedding of retrieve_ontology_matches, parameterized by the outcome of
the HTTP search call: none models a requests.RequestException (raised by the
transport or by raise_for_status). On success the function returns the pair
of the parsed body (standing for the jsonresults dump) and the concept list;
on a caught exception the except branch only prints, so the function returns
None, embedded as none. -/
def retrieve_ontology_matches (resp : Option SearchResponse) :
    Option (SearchResponse × List OntologyConcept) :=
  match resp with
  | some r => some (r, (docsOf r).map buildConcept)
  | none => none

/-! ## get_term_ancestors (src/script.py lines 58-104) -/

/-- The embedded field of a parsed ancestors body (the terms key may be
absent). -/
structure EmbeddedField where
  terms : Option (List RawDoc)
deriving Repr, DecidableEq

/-- A parsed ancestors response body (the embedded key may be absent). -/
structure AncestorsResponse where
  embedded : Option EmbeddedField
deriving Repr, DecidableEq

/-- Embedding of result.get(_embedded, {}).get(terms, []). -/
def termsOf (r : AncestorsResponse) : List RawDoc :=
  match r.embedded with
  | some f => f.terms.getD []
  | none => []

/-- The value returned by get_term_ancestors: either the ancestor list, or
the caught requests.RequestException object itself, which the except branch
returns as the function result (src/script.py line 104). -/
inductive AncestorsResult where
  | ancestors (l : List RawDoc)
  | errObj
deriving Repr, DecidableEq

/-- Embedding of get_term_ancestors, parameterized by the outcome of the HTTP
call: none models a requests.RequestException, in which case the function
returns the exception object. -/
def get_term_ancestors (resp : Option AncestorsResponse) : AncestorsResult :=
  match resp with
  | some r => AncestorsResult.ancestors (termsOf r)
  | none => AncestorsResult.errObj

/-- Embedding of the Python len call applied to a get_term_ancestors result:
len of a list succeeds, len of an exception object raises TypeError (none). -/
def pyLen : AncestorsResult → Option Nat
  | AncestorsResult.ancestors l => some l.length
  | AncestorsResult.errObj => none

/-! ## rank_ontology_matches_by_distance (src/script.py lines 106-134) -/

/-- An oracle giving the outcome of the ancestors HTTP call for an ontology
name and an IRI: none models a requests.RequestException. -/
abbrev AncOracle := String → String → Option AncestorsResponse

/-- One iteration of the ranking loop for one match: fetch the ancestors,
take their number with len (which raises TypeError on the returned exception
object, embedded as none), and add the two keys ancestors and
distance_from_root to the match dict. -/
def augmentMatch (fetch : AncOracle) (m : OntologyConcept) : Option OntologyConcept :=
  match get_term_ancestors (fetch m.ontology_name m.iri) with
  | AncestorsResult.ancestors l =>
    some { m with ancestors := some l, distance_from_root := some l.length }
  | AncestorsResult.errObj => none

/-- The sort key lambda x: x of the distance_from_root key. After the loop
every match carries the key, so the default 0 branch is never reached there. -/
def rankKey (m : OntologyConcept) : Nat :=
  m.distance_from_root.getD 0

/-- Stable insertion of an element into a list by a natural-number key: the
element goes before the first strictly greater key, after equal keys. -/
def insertByKey (key : α → Nat) (x : α) : List α → List α
  | [] => [x]
  | y :: ys => if key x ≤ key y then x :: y :: ys else y :: insertByKey key x ys

/-- Stable sort by a natural-number key. Python list.sort is a stable sort;
any stable sort produces the same output list, so this insertion sort is an
exact embedding of matches_with_metadata.sort. -/
def stableSortByKey (key : α → Nat) : List α → List α
  | [] => []
  | x :: xs => insertByKey key x (stableSortByKey key xs)

/-- Embedding of rank_ontology_matches_by_distance: augment every match with
its ancestor data (an uncaught TypeError from len aborts the whole call,
embedded as none), then sort stably by distance_from_root. The time.sleep
throttle has no bearing on the returned value and is not modelled. -/
def rank_ontology_matches_by_distance (fetch : AncOracle)
    (ontology_matches : List OntologyConcept) : Option (List OntologyConcept) :=
  match ontology_matches.mapM (augmentMatch fetch) with
  | some withMeta => some (stableSortByKey rankKey withMeta)
  | none => none

/-- The ancestor list recorded for a match when its fetch succeeds. -/
def fetchedAncestors (fetch : AncOracle) (m : OntologyConcept) : List RawDoc :=
  match fetch m.ontology_name m.iri with
  | some r => termsOf r
  | none => []

/-- The augmented form of a match whose fetch succeeds: the five base fields
unchanged, the two new fields set. -/
def augmented (fetch : AncOracle) (m : OntologyConcept) : OntologyConcept :=
  { m with
    ancestors := some (fetchedAncestors fetch m)
    distance_from_root := some (fetchedAncestors fetch m).length }

/-! ## The module-level enrichment loop (src/script.py lines 221-257) -/

/-- One text with its ontology matches, as appended under a category. The
Python key is named matches, which Lean reserves, hence conceptMatches. -/
structure EnrichedPhrase where
  text : String
  conceptMatches : List OntologyConcept
deriving Repr, DecidableEq

/-- The dict annotation_d assembled for one annotation. -/
structure EnrichedAnnot where
  doc_title : String
  doc_lastauthorname : String
  doc_year : String
  url : String
  doc_peco_section : String
  peco_statement : String
  peco_elements : List (String × List EnrichedPhrase)
deriving Repr, DecidableEq

/-- An oracle giving the outcome of the search HTTP call for a term: none
models a requests.RequestException. -/
abbrev SearchOracle := String → Option SearchResponse

/-- Embedding of the indexed update of the initialized peco_elements dict:
appending under a key that is absent raises KeyError (none). -/
def elemsAppend (m : List (String × List EnrichedPhrase)) (k : String)
    (v : EnrichedPhrase) : Option (List (String × List EnrichedPhrase)) :=
  match m with
  | [] => none
  | (k0, vs) :: rest =>
    if k0 == k then some ((k0, vs ++ [v]) :: rest)
    else (elemsAppend rest k v).map (fun r => (k0, vs) :: r)

/-- The inner loop over the texts of one category: retrieve the matches for
each text (the tuple unpacking of a None return raises TypeError, embedded as
none) and append the text-with-matches record under the category. -/
def enrichTexts (search : SearchOracle) (cat : String) :
    List String → List (String × List EnrichedPhrase) →
    Option (List (String × List EnrichedPhrase))
  | [], acc => some acc
  | t :: ts, acc => do
    let res ← retrieve_ontology_matches (search t)
    let acc2 ← elemsAppend acc cat { text := t, conceptMatches := res.2 }
    enrichTexts search cat ts acc2

/-- The loop over the categories recorded in the extracted annotation. -/
def enrichElements (search : SearchOracle) :
    PecoMap → List (String × List EnrichedPhrase) →
    Option (List (String × List EnrichedPhrase))
  | [], acc => some acc
  | (cat, ts) :: rest, acc => do
    let acc2 ← enrichTexts search cat ts acc
    enrichElements search rest acc2

/-- The peco_elements dict of annotation_d as initialized in the loop body. -/
def initElements : List (String × List EnrichedPhrase) :=
  [("Population", []), ("Exposure", []), ("Comparator", []), ("Outcome", [])]

/-- Embedding of one iteration of the module-level enrichment loop. Every
direct dict index on the extracted annotation raises KeyError when the key is
absent, embedded as none; a failed search raises TypeError at the tuple
unpacking, also embedded as none. -/
def enrichAnnot (search : SearchOracle) (a : TableDict) : Option EnrichedAnnot := do
  let title ← a.doc_title
  let pe ← a.peco_elements
  let lastauthor ← a.doc_lastauthorname
  let year ← a.doc_year
  let url ← a.doc_url
  let sectionLabel ← a.doc_peco_section
  let stmt ← a.peco_statement
  let elems ← enrichElements search pe initElements
  some { doc_title := title, doc_lastauthorname := lastauthor, doc_year := year,
         url := url, doc_peco_section := sectionLabel, peco_statement := stmt,
         peco_elements := elems }

/-- Embedding of the whole module-level pipeline on the extracted annotation
list: any uncaught exception in one iteration aborts the run (none). -/
def enrichAll (search : SearchOracle) (doc : List Table) : Option (List EnrichedAnnot) :=
  (extract_peco_highlights_from_tables doc).mapM (enrichAnnot search)

/-! ## Predicates and concrete fixtures used by the theorems -/

/-- Does a row match the PECO statement label (the case-sensitive substring
test of src/script.py line 185). -/
def isPecoRow (r : Row) : Bool :=
  strContains (pyStrip r.firstCell.text) "PECO statement"

/-- Does a row match any of the seven recognized label substrings of the row
loop (src/script.py lines 161-185). -/
def rowRecognized (r : Row) : Bool :=
  strContains (pyStrip r.firstCell.text) "Title of manuscript"
  || strContains (pyStrip r.firstCell.text) "Last name of first author"
  || strContains (pyStrip r.firstCell.text) "Year of publication"
  || strContains (pyStrip r.firstCell.text) "URL of HTML manuscript"
  || strContains (pyStrip r.firstCell.text) "Section PECO statement is in"
  || strContains (pyStrip r.firstCell.text) "Annotator comments"
  || strContains (pyStrip r.firstCell.text) "PECO statement"

/-- Modelled from the spec: the count of tables containing a row whose first
cell contains the substring PECO statement. This is the spec-side quantity of
the claimed record count, to be compared with the code-side count. -/
def specPecoTableCount (doc : List Table) : Nat :=
  doc.countP (fun t => t.rows.any isPecoRow)

/-- Lookup of one category in the peco_elements map of an extracted record. -/
def pecoLookup (d : TableDict) (k : String) : Option (List String) :=
  d.peco_elements.bind (fun m => (m.find? (fun kv => kv.1 == k)).map (fun kv => kv.2))

/-- A metadata row: a label cell and a value cell. -/
def mkRow (lbl v : String) : Row :=
  { firstCell := { text := lbl, paragraphs := [] },
    restCells := [{ text := v, paragraphs := [] }] }

/-- A run carrying a highlight color index and no font color. -/
def hlRun (c t : String) : Run :=
  { text := t, font := { highlight_color := some c, color := none } }

/-- A run with neither highlight color nor font color. -/
def plainRun (t : String) : Run :=
  { text := t, font := { highlight_color := none, color := none } }

/-- A PECO-statement row whose last cell holds one paragraph with the given
runs. -/
def pecoRow (runs : List Run) : Row :=
  { firstCell := { text := "PECO statement", paragraphs := [] },
    restCells := [{ text := "", paragraphs := [{ runs := runs }] }] }

/-- The scenario table of the spec: title row, year row, and a PECO row with
one run highlighted PINK (5) and one unhighlighted run. -/
def scenarioTable : Table :=
  { rows := [
      mkRow "Title of manuscript" "Study X",
      mkRow "Year of publication" "2020",
      pecoRow [hlRun "PINK (5)" "elderly adults", plainRun "were studied"]] }

/-- A table whose only recognized row is a title row: it contains no PECO
statement row. -/
def titleOnlyTable : Table :=
  { rows := [mkRow "Title of manuscript" "X"] }

/-- A table carrying every metadata row the enrichment loop reads, plus a
PECO row with one highlighted phrase. -/
def fullTable : Table :=
  { rows := [
      mkRow "Title of manuscript" "Study X",
      mkRow "Last name of first author" "Doe",
      mkRow "Year of publication" "2020",
      mkRow "URL of HTML manuscript" "http://example.org/ms",
      mkRow "Section PECO statement is in" "Methods",
      pecoRow [hlRun "PINK (5)" "elderly adults", plainRun "were studied"]] }

/-- A table with a PECO row and several metadata rows but no Title of
manuscript row. -/
def noTitleTable : Table :=
  { rows := [
      mkRow "Last name of first author" "Doe",
      mkRow "Year of publication" "2020",
      mkRow "URL of HTML manuscript" "http://example.org/ms",
      mkRow "Section PECO statement is in" "Methods",
      pecoRow [hlRun "PINK (5)" "elderly adults"]] }

/-- A table with two PECO statement rows carrying different highlights. -/
def twoPecoTable : Table :=
  { rows := [
      pecoRow [hlRun "PINK (5)" "children"],
      pecoRow [hlRun "YELLOW (7)" "mortality"]] }

/-- A search oracle whose HTTP call always succeeds with one raw document. -/
def okSearch : SearchOracle :=
  fun _ => some { response := some { docs := some [[("label", "match")]] } }

/-- A search oracle whose HTTP call always raises a RequestException. -/
def failSearch : SearchOracle :=
  fun _ => none

/-- Concept A of the ranking scenario. -/
def conceptA : OntologyConcept :=
  { label := "A", iri := "iriA", description := "descA",
    ontology_name := "ontoA", short_form := "A0" }

/-- Concept B of the ranking scenario. -/
def conceptB : OntologyConcept :=
  { label := "B", iri := "iriB", description := "descB",
    ontology_name := "ontoB", short_form := "B0" }

/-- An ancestors oracle: three ancestors for iriA, one ancestor otherwise. -/
def bothOk : AncOracle :=
  fun _ iri =>
    if iri == "iriA" then
      some { embedded := some { terms := some [[("t", "t1")], [("t", "t2")], [("t", "t3")]] } }
    else
      some { embedded := some { terms := some [[("t", "t1")]] } }

/-- An ancestors oracle: the fetch succeeds for iriA and raises for every
other IRI. -/
def failOnB : AncOracle :=
  fun _ iri =>
    if iri == "iriA" then
      some { embedded := some { terms := some [[("t", "t1")], [("t", "t2")], [("t", "t3")]] } }
    else
      none

/-! ## Theorems -/

/-- C9: get_highlight_color returns the highlight index when one is present
(taking precedence over an RGB font color), returns the RGB color when only a
font color with an rgb value is present, and returns none when neither is
present, in which case the run is treated as non-highlighted. -/
theorem get_highlight_color_spec (run : Run) :
    (∀ h, run.font.highlight_color = some h → get_highlight_color run = some h)
    ∧ (∀ c rgbv, run.font.highlight_color = none → run.font.color = some c →
        c.rgb = some rgbv → get_highlight_color run = some rgbv)
    ∧ (run.font.highlight_color = none →
        (run.font.color = none ∨ ∀ c, run.font.color = some c → c.rgb = none) →
        get_highlight_color run = none) := by
  refine ⟨fun h hh => ?_, fun c rgbv hn hc hr => ?_, fun hn hd => ?_⟩
  · simp [get_highlight_color, hh]
  · simp [get_highlight_color, hn, hc, hr]
  · rcases hd with hd | hd
    · simp [get_highlight_color, hn, hd]
    · cases hcol : run.font.color with
      | none => simp [get_highlight_color, hn, hcol]
      | some c => simp [get_highlight_color, hn, hcol, hd c hcol]

/-- Witness for C9 at a concrete run carrying both a highlight index and a
font color: the highlight index wins. -/
theorem get_highlight_color_spec_witness :
    get_highlight_color
      { text := "elderly adults",
        font := { highlight_color := some "PINK (5)",
                  color := some { rgb := some "FF0000" } } } = some "PINK (5)" :=
  (get_highlight_color_spec _).1 "PINK (5)" rfl

/-- C7: a concept built from a raw search result document has every one of
its five fields; a field whose key is missing from the raw document is filled
with its fixed sentinel. The last conjunct records that on a successful call
retrieve_ontology_matches builds exactly these concepts from the result docs. -/
theorem buildConcept_sentinel_defaults (d : RawDoc) :
    (d.find? (fun kv => kv.1 == "label") = none →
      (buildConcept d).label = "No Label")
    ∧ (d.find? (fun kv => kv.1 == "iri") = none →
      (buildConcept d).iri = "No IRI")
    ∧ (d.find? (fun kv => kv.1 == "description") = none →
      (buildConcept d).description = "No Description")
    ∧ (d.find? (fun kv => kv.1 == "ontology_name") = none →
      (buildConcept d).ontology_name = "No Ontology Name")
    ∧ (d.find? (fun kv => kv.1 == "short_form") = none →
      (buildConcept d).short_form = "No Short Form")
    ∧ ∀ r : SearchResponse,
        retrieve_ontology_matches (some r) = some (r, (docsOf r).map buildConcept) := by
  refine ⟨fun h => ?_, fun h => ?_, fun h => ?_, fun h => ?_, fun h => ?_, fun r => rfl⟩ <;>
    simp [buildConcept, dget, h]

/-- Witness for C7 at a raw document holding only a label: its description is
the sentinel. -/
theorem buildConcept_sentinel_defaults_witness :
    ([("label", "diabetes")].find? (fun kv => kv.1 == "description") = none)
    ∧ (buildConcept [("label", "diabetes")]).description = "No Description" :=
  ⟨by decide, (buildConcept_sentinel_defaults [("label", "diabetes")]).2.2.1 (by decide)⟩

/-- C1 (code bug): when the search HTTP call raises, retrieve_ontology_matches
returns None rather than a pair with an empty match list, so the tuple
unpacking in the enrichment loop raises TypeError and the pipeline halts
instead of continuing past the phrase; the same document with a succeeding
search oracle is enriched. -/
theorem retrieve_failure_halts_pipeline :
    retrieve_ontology_matches none = none
    ∧ enrichAll failSearch [fullTable] = none
    ∧ enrichAll okSearch [fullTable] ≠ none := by decide

/-- C2 (code bug): when the ancestors HTTP call for one concept raises,
get_term_ancestors returns the exception object, len applied to it raises
TypeError, and the whole ranking call aborts instead of treating the list as
empty and completing the remaining concepts. -/
theorem ancestor_failure_aborts_ranking :
    get_term_ancestors none = AncestorsResult.errObj
    ∧ pyLen AncestorsResult.errObj = none
    ∧ rank_ontology_matches_by_distance failOnB [conceptA, conceptB] = none := by decide

/-- C6: the scenario table yields exactly one record, with title Study X,
year 2020, Population phrase list exactly the highlighted run text, and a
statement containing both run texts concatenated with a space. -/
theorem scenario_extraction :
    (extract_peco_highlights_from_tables [scenarioTable]).length = 1
    ∧ (extract_peco_highlights_from_tables [scenarioTable]).all (fun d =>
        d.doc_title == some "Study X"
        && d.doc_year == some "2020"
        && pecoLookup d "Population" == some ["elderly adults"]
        && d.peco_statement.any (fun s =>
             strContains s "elderly adults were studied")) = true := by decide

/-- C3 (counterexample): a document with one table holding only a Title of
manuscript row yields one record, yet no table contains a PECO statement row,
so the record count differs from the count the claim states. -/
theorem extract_count_ne_peco_table_count :
    (extract_peco_highlights_from_tables [titleOnlyTable]).length ≠
      specPecoTableCount [titleOnlyTable] := by decide

/-- C4 (counterexample): a table with a PECO row but no Title of manuscript
row is extracted as an annotation, yet the enrichment loop raises KeyError on
it even though every search succeeds, so no EnrichedAnnotation is produced. -/
theorem missing_title_row_halts_enrichment :
    extract_peco_highlights_from_tables [noTitleTable] ≠ []
    ∧ enrichAll okSearch [noTitleTable] = none := by decide

/-- Inserting by key permutes consing. -/
theorem perm_insertByKey (key : α → Nat) (x : α) (l : List α) :
    List.Perm (insertByKey key x l) (x :: l) := by
  induction l with
  | nil => rfl
  | cons y ys ih =>
    simp only [insertByKey]
    split
    · rfl
    · exact (ih.cons y).trans (List.Perm.swap x y ys)

/-- The stable sort permutes its input. -/
theorem perm_stableSortByKey (key : α → Nat) (l : List α) :
    List.Perm (stableSortByKey key l) l := by
  induction l with
  | nil => rfl
  | cons x xs ih => exact (perm_insertByKey key x _).trans (ih.cons x)

/-- Inserting by key preserves sortedness by the key. -/
theorem pairwise_insertByKey (key : α → Nat) (x : α) {l : List α}
    (h : l.Pairwise (fun a b => key a ≤ key b)) :
    (insertByKey key x l).Pairwise (fun a b => key a ≤ key b) := by
  induction l with
  | nil => simp [insertByKey]
  | cons y ys ih =>
    rcases List.pairwise_cons.mp h with ⟨hy, hys⟩
    simp only [insertByKey]
    split
    · rename_i hxy
      refine List.pairwise_cons.mpr ⟨fun z hz => ?_, h⟩
      rcases List.mem_cons.mp hz with rfl | hz
      · exact hxy
      · exact hxy.trans (hy z hz)
    · rename_i hxy
      refine List.pairwise_cons.mpr ⟨fun z hz => ?_, ih hys⟩
      rcases List.mem_cons.mp ((perm_insertByKey key x ys).mem_iff.mp hz) with rfl | hz
      · exact Nat.le_of_lt (Nat.lt_of_not_le hxy)
      · exact hy z hz

/-- The stable sort is sorted by the key. -/
theorem pairwise_stableSortByKey (key : α → Nat) (l : List α) :
    (stableSortByKey key l).Pairwise (fun a b => key a ≤ key b) := by
  induction l with
  | nil => exact List.Pairwise.nil
  | cons x xs ih => exact pairwise_insertByKey key x ih

/-- Filtering one key class through an insertion: the inserted element lands
in front of its class exactly, because insertion passes only over strictly
smaller keys. -/
theorem filter_insertByKey (key : α → Nat) (x : α) (l : List α) (n : Nat) :
    (insertByKey key x l).filter (fun a => key a == n) =
      if key x == n then x :: l.filter (fun a => key a == n)
      else l.filter (fun a => key a == n) := by
  induction l with
  | nil => simp only [insertByKey, List.filter_cons, List.filter_nil]
  | cons y ys ih =>
    by_cases hxy : key x ≤ key y
    · simp only [insertByKey, if_pos hxy, List.filter_cons]
    · have hyx : key y < key x := Nat.lt_of_not_le hxy
      simp only [insertByKey, if_neg hxy, List.filter_cons]
      by_cases hy : (key y == n) = true
      · by_cases hx : (key x == n) = true
        · exfalso
          have h1 : key y = n := by simpa using hy
          have h2 : key x = n := by simpa using hx
          omega
        · simp [hy, hx, ih]
      · simp [hy, ih]

/-- Filtering one key class through the stable sort leaves the class in its
original relative order. -/
theorem filter_stableSortByKey (key : α → Nat) (l : List α) (n : Nat) :
    (stableSortByKey key l).filter (fun a => key a == n) =
      l.filter (fun a => key a == n) := by
  induction l with
  | nil => rfl
  | cons x xs ih =>
    simp only [stableSortByKey, filter_insertByKey, List.filter_cons, ih]

/-- When every ancestor fetch succeeds, the ranking loop augments every match
in order. -/
theorem mapM_augmentMatch_ok (fetch : AncOracle) (ms : List OntologyConcept)
    (h : ∀ m ∈ ms, (fetch m.ontology_name m.iri).isSome) :
    ms.mapM (augmentMatch fetch) = some (ms.map (augmented fetch)) := by
  induction ms with
  | nil => rfl
  | cons m rest ih =>
    have hm := h m (List.mem_cons_self m rest)
    have hrest := ih (fun x hx => h x (List.mem_cons_of_mem m hx))
    cases hf : fetch m.ontology_name m.iri with
    | none => rw [hf] at hm; simp at hm
    | some r =>
      have ha : augmentMatch fetch m = some (augmented fetch m) := by
        simp [augmentMatch, get_term_ancestors, hf, augmented, fetchedAncestors]
      rw [List.mapM_cons, ha, hrest]
      rfl

/-- When every ancestor fetch succeeds, rank_ontology_matches_by_distance
returns the stable sort of the augmented matches. -/
theorem rank_ok (fetch : AncOracle) (ms : List OntologyConcept)
    (h : ∀ m ∈ ms, (fetch m.ontology_name m.iri).isSome) :
    rank_ontology_matches_by_distance fetch ms =
      some (stableSortByKey rankKey (ms.map (augmented fetch))) := by
  rw [rank_ontology_matches_by_distance, mapM_augmentMatch_ok fetch ms h]

/-- C5: when every ancestor fetch succeeds, the ranking returns the concepts
sorted ascending by distance_from_root, as a permutation of the augmented
input, and ties keep their original relative order (the subsequence of every
fixed distance equals the corresponding subsequence of the input). -/
theorem rank_sorted_stable (fetch : AncOracle) (ms : List OntologyConcept)
    (h : ∀ m ∈ ms, (fetch m.ontology_name m.iri).isSome) :
    ∃ out, rank_ontology_matches_by_distance fetch ms = some out
      ∧ out.Pairwise (fun a b => rankKey a ≤ rankKey b)
      ∧ List.Perm out (ms.map (augmented fetch))
      ∧ ∀ n, out.filter (fun m => rankKey m == n) =
          (ms.map (augmented fetch)).filter (fun m => rankKey m == n) :=
  ⟨stableSortByKey rankKey (ms.map (augmented fetch)),
    rank_ok fetch ms h,
    pairwise_stableSortByKey rankKey _,
    perm_stableSortByKey rankKey _,
    fun n => filter_stableSortByKey rankKey _ n⟩

/-- Witness for C5 at the scenario input: concept A has three ancestors and
concept B has one, and the output order is B then A. -/
theorem rank_sorted_stable_witness :
    (∃ out, rank_ontology_matches_by_distance bothOk [conceptA, conceptB] = some out
      ∧ out.Pairwise (fun a b => rankKey a ≤ rankKey b)
      ∧ List.Perm out ([conceptA, conceptB].map (augmented bothOk))
      ∧ ∀ n, out.filter (fun m => rankKey m == n) =
          ([conceptA, conceptB].map (augmented bothOk)).filter (fun m => rankKey m == n))
    ∧ rank_ontology_matches_by_distance bothOk [conceptA, conceptB] =
        some [augmented bothOk conceptB, augmented bothOk conceptA] :=
  ⟨rank_sorted_stable bothOk [conceptA, conceptB] (by decide), by decide⟩

/-- C10: when every ancestor fetch succeeds, the ranking returns a
permutation of the input records, each augmented with exactly the two new
fields ancestors and distance_from_root (the latter the length of the
former), every pre-existing field unchanged. -/
theorem rank_frame (fetch : AncOracle) (ms : List OntologyConcept)
    (h : ∀ m ∈ ms, (fetch m.ontology_name m.iri).isSome) :
    ∃ out, rank_ontology_matches_by_distance fetch ms = some out
      ∧ List.Perm out (ms.map (augmented fetch))
      ∧ ∀ m ∈ ms, augmented fetch m =
          { label := m.label, iri := m.iri, description := m.description,
            ontology_name := m.ontology_name, short_form := m.short_form,
            ancestors := some (fetchedAncestors fetch m),
            distance_from_root := some (fetchedAncestors fetch m).length } :=
  ⟨stableSortByKey rankKey (ms.map (augmented fetch)),
    rank_ok fetch ms h,
    perm_stableSortByKey rankKey _,
    fun _ _ => rfl⟩

/-- Witness for C10 at the scenario input. -/
theorem rank_frame_witness :
    ∃ out, rank_ontology_matches_by_distance bothOk [conceptA, conceptB] = some out
      ∧ List.Perm out ([conceptA, conceptB].map (augmented bothOk))
      ∧ ∀ m ∈ [conceptA, conceptB], augmented bothOk m =
          { label := m.label, iri := m.iri, description := m.description,
            ontology_name := m.ontology_name, short_form := m.short_form,
            ancestors := some (fetchedAncestors bothOk m),
            distance_from_root := some (fetchedAncestors bothOk m).length } :=
  rank_frame bothOk [conceptA, conceptB] (by decide)

/-- The title step empties iff it did nothing to an empty dict. -/
theorem isEmpty_rowStepTitle (r : Row) (d : TableDict) :
    (rowStepTitle r d).isEmpty =
      (d.isEmpty && !strContains (pyStrip r.firstCell.text) "Title of manuscript") := by
  simp only [rowStepTitle]; split <;> simp_all [TableDict.isEmpty]

/-- The author step empties iff it did nothing to an empty dict. -/
theorem isEmpty_rowStepAuthor (r : Row) (d : TableDict) :
    (rowStepAuthor r d).isEmpty =
      (d.isEmpty && !strContains (pyStrip r.firstCell.text) "Last name of first author") := by
  simp only [rowStepAuthor]; split <;> simp_all [TableDict.isEmpty]

/-- The year step empties iff it did nothing to an empty dict. -/
theorem isEmpty_rowStepYear (r : Row) (d : TableDict) :
    (rowStepYear r d).isEmpty =
      (d.isEmpty && !strContains (pyStrip r.firstCell.text) "Year of publication") := by
  simp only [rowStepYear]; split <;> simp_all [TableDict.isEmpty]

/-- The url step empties iff it did nothing to an empty dict. -/
theorem isEmpty_rowStepUrl (r : Row) (d : TableDict) :
    (rowStepUrl r d).isEmpty =
      (d.isEmpty && !strContains (pyStrip r.firstCell.text) "URL of HTML manuscript") := by
  simp only [rowStepUrl]; split <;> simp_all [TableDict.isEmpty]

/-- The section step empties iff it did nothing to an empty dict. -/
theorem isEmpty_rowStepSection (r : Row) (d : TableDict) :
    (rowStepSection r d).isEmpty =
      (d.isEmpty && !strContains (pyStrip r.firstCell.text) "Section PECO statement is in") := by
  simp only [rowStepSection]; split <;> simp_all [TableDict.isEmpty]

/-- The comments step empties iff it did nothing to an empty dict. -/
theorem isEmpty_rowStepComments (r : Row) (d : TableDict) :
    (rowStepComments r d).isEmpty =
      (d.isEmpty && !strContains (pyStrip r.firstCell.text) "Annotator comments") := by
  simp only [rowStepComments]; split <;> simp_all [TableDict.isEmpty]

/-- The PECO step empties iff it did nothing to an empty dict. -/
theorem isEmpty_rowStepPeco (r : Row) (d : TableDict) :
    (rowStepPeco r d).isEmpty =
      (d.isEmpty && !strContains (pyStrip r.firstCell.text) "PECO statement") := by
  simp only [rowStepPeco]; split <;> simp_all [TableDict.isEmpty]

/-- One row step leaves the table dict empty exactly when it was empty and
the row matches none of the seven recognized labels. -/
theorem isEmpty_processRow (d : TableDict) (r : Row) :
    (processRow d r).isEmpty = (d.isEmpty && !rowRecognized r) := by
  simp only [processRow, rowRecognized, isEmpty_rowStepPeco, isEmpty_rowStepComments,
    isEmpty_rowStepSection, isEmpty_rowStepUrl, isEmpty_rowStepYear,
    isEmpty_rowStepAuthor, isEmpty_rowStepTitle, Bool.not_or]
  ac_rfl

/-- Folding the rows leaves the table dict empty exactly when it started
empty and no row matches a recognized label. -/
theorem isEmpty_foldl_processRow (rows : List Row) (d : TableDict) :
    (rows.foldl processRow d).isEmpty = (d.isEmpty && !rows.any rowRecognized) := by
  induction rows generalizing d with
  | nil => simp
  | cons r rs ih =>
    simp [List.foldl_cons, ih, isEmpty_processRow, Bool.and_assoc]

/-- C3 (amended): the number of records produced equals the number of tables
containing at least one row whose first cell matches one of the seven
recognized label substrings; a table with no such row produces no record. -/
theorem extract_count_eq_recognized_table_count (doc : List Table) :
    (extract_peco_highlights_from_tables doc).length =
      doc.countP (fun t => t.rows.any rowRecognized) := by
  induction doc with
  | nil => rfl
  | cons t ts ih =>
    have h : (processTable t).isEmpty = !t.rows.any rowRecognized := by
      have h0 := isEmpty_foldl_processRow t.rows {}
      simpa [processTable, TableDict.isEmpty] using h0
    simp only [extract_peco_highlights_from_tables, List.filterMap_cons] at ih ⊢
    cases hb : t.rows.any rowRecognized <;>
      simp [h, hb, List.countP_cons, ih]

/-- The six metadata steps never touch the two PECO fields. -/
theorem pecoFields_metadataSteps (r : Row) (d : TableDict) :
    ((rowStepTitle r d).peco_elements = d.peco_elements
      ∧ (rowStepTitle r d).peco_statement = d.peco_statement)
    ∧ ((rowStepAuthor r d).peco_elements = d.peco_elements
      ∧ (rowStepAuthor r d).peco_statement = d.peco_statement)
    ∧ ((rowStepYear r d).peco_elements = d.peco_elements
      ∧ (rowStepYear r d).peco_statement = d.peco_statement)
    ∧ ((rowStepUrl r d).peco_elements = d.peco_elements
      ∧ (rowStepUrl r d).peco_statement = d.peco_statement)
    ∧ ((rowStepSection r d).peco_elements = d.peco_elements
      ∧ (rowStepSection r d).peco_statement = d.peco_statement)
    ∧ ((rowStepComments r d).peco_elements = d.peco_elements
      ∧ (rowStepComments r d).peco_statement = d.peco_statement) := by
  refine ⟨⟨?_, ?_⟩, ⟨?_, ?_⟩, ⟨?_, ?_⟩, ⟨?_, ?_⟩, ⟨?_, ?_⟩, ⟨?_, ?_⟩⟩ <;>
    simp only [rowStepTitle, rowStepAuthor, rowStepYear, rowStepUrl,
      rowStepSection, rowStepComments] <;> split <;> rfl

/-- One row step writes the two PECO fields exactly when the row is a PECO
statement row, and otherwise leaves them unchanged. -/
theorem peco_processRow (d : TableDict) (r : Row) :
    (processRow d r).peco_elements =
      (if isPecoRow r then some (processPecoCell r.lastCell).1 else d.peco_elements)
    ∧ (processRow d r).peco_statement =
      (if isPecoRow r then some (processPecoCell r.lastCell).2 else d.peco_statement) := by
  simp only [processRow, rowStepPeco, isPecoRow]
  split
  · exact ⟨rfl, rfl⟩
  · constructor
    · rw [(pecoFields_metadataSteps r _).2.2.2.2.2.1,
        (pecoFields_metadataSteps r _).2.2.2.2.1.1,
        (pecoFields_metadataSteps r _).2.2.2.1.1,
        (pecoFields_metadataSteps r _).2.2.1.1,
        (pecoFields_metadataSteps r _).2.1.1,
        (pecoFields_metadataSteps r _).1.1]
    · rw [(pecoFields_metadataSteps r _).2.2.2.2.2.2,
        (pecoFields_metadataSteps r _).2.2.2.2.1.2,
        (pecoFields_metadataSteps r _).2.2.2.1.2,
        (pecoFields_metadataSteps r _).2.2.1.2,
        (pecoFields_metadataSteps r _).2.1.2,
        (pecoFields_metadataSteps r _).1.2]

/-- Folding the rows leaves the two PECO fields equal to those computed from
the last PECO statement row, when one exists. -/
theorem peco_foldl (rows : List Row) (d : TableDict) :
    ((rows.foldl processRow d).peco_elements, (rows.foldl processRow d).peco_statement) =
      (match (rows.filter isPecoRow).getLast? with
        | some r => (some (processPecoCell r.lastCell).1, some (processPecoCell r.lastCell).2)
        | none => (d.peco_elements, d.peco_statement)) := by
  induction rows using List.reverseRecOn with
  | nil => rfl
  | append_singleton rs r ih =>
    rw [List.foldl_append, List.foldl_cons, List.foldl_nil, List.filter_append]
    have hp := peco_processRow (rs.foldl processRow d) r
    cases hr : isPecoRow r with
    | true =>
      rw [hr] at hp
      simp only [if_pos rfl] at hp
      simp [List.filter_cons, hr, List.getLast?_concat, hp.1, hp.2]
    | false =>
      rw [hr] at hp
      simp at hp
      simp only [List.filter_cons, hr]
      simp only [Bool.false_eq_true, reduceIte, List.filter_nil, List.append_nil, hp.1, hp.2]
      exact ih

/-- C8: in a table with more than one PECO statement row, the produced record
carries the peco_elements and peco_statement computed from the last such row
in row order; later rows overwrite earlier ones. -/
theorem last_peco_row_wins (t : Table)
    (hmany : 1 < (t.rows.filter isPecoRow).length) :
    ∀ r, (t.rows.filter isPecoRow).getLast? = some r →
      (processTable t).peco_elements = some (processPecoCell r.lastCell).1
      ∧ (processTable t).peco_statement = some (processPecoCell r.lastCell).2 := by
  intro r hr
  have h := peco_foldl t.rows {}
  rw [hr] at h
  simp only [Prod.mk.injEq] at h
  exact ⟨h.1, h.2⟩

/-- Witness for C8 at a table with two PECO rows: the fields come from the
second row. -/
theorem last_peco_row_wins_witness :
    1 < (twoPecoTable.rows.filter isPecoRow).length
    ∧ (processTable twoPecoTable).peco_elements = some [("Outcome", ["mortality"])]
    ∧ (processTable twoPecoTable).peco_statement = some "mortality " := by
  refine ⟨by decide, ?_⟩
  have h := last_peco_row_wins twoPecoTable (by decide)
    (pecoRow [hlRun "YELLOW (7)" "mortality"]) (by decide)
  rw [h.1, h.2]
  exact ⟨by decide, by decide⟩

/-- C4 (amended): the enrichment loop indexes the extracted record directly,
so a record missing any of the seven keys it reads raises KeyError and no
EnrichedAnnotation is produced for it; missing rows are tolerated during
extraction (the field is simply absent) but not by the enrichment loop. -/
theorem enrich_requires_all_fields (search : SearchOracle) (a : TableDict)
    (h : a.doc_title = none ∨ a.doc_lastauthorname = none ∨ a.doc_year = none
      ∨ a.doc_url = none ∨ a.doc_peco_section = none ∨ a.peco_statement = none
      ∨ a.peco_elements = none) :
    enrichAnnot search a = none := by
  obtain ⟨t, la, y, u, sec, com, pe, ps⟩ := a
  cases t <;> cases la <;> cases y <;> cases u <;> cases sec <;>
    cases pe <;> cases ps <;>
    first
      | rfl
      | (rcases h with h | h | h | h | h | h | h <;> simp_all)

/-- Witness for C4 amended: a record with the PECO fields but no title is not
enriched. -/
theorem enrich_requires_all_fields_witness :
    ({ peco_elements := some [], peco_statement := some "" } : TableDict).doc_title = none
    ∧ enrichAnnot okSearch { peco_elements := some [], peco_statement := some "" } = none :=
  ⟨rfl, enrich_requires_all_fields okSearch _ (Or.inl rfl)⟩
